import Mathlib

/-!
Verification development for the SEC fails-to-deliver data pipeline.

The Lean definitions below are shallow embeddings of the Python sources:

* `DataProcessing/helpers/clean.py` (`convert_txt_csv`): row repair
  (`padTo6`, `applyC7`), the `c2` validity filter (`c2keep`), the per-source
  conversion loop (`processSource`, `runConvert`), and the fixed output path
  (`out_path`).
* `DataProcessing/helpers/period_parition.py`: calendar arithmetic
  (`firstOfMonth`, `endOfMonth`, ...), period metadata (`scheme`, `period`,
  `periodStart`, `periodEnd`, `releaseDateEst`) and the per-period
  aggregation (`aggregate`).
* `DataProcessing/process.sample/sample.process.py`
  (`_save_content_to_file`): the merge-append writer (`saveContent`), its
  sort keys (`firstField`, `dateKey`, `parseYmd`), and the temp-file /
  rename step modelled on an explicit file-system state (`fsWrite`,
  `fsRename`, `saveStates`).
* `DataProcessing/helpers/extract.py` (`SECFtdSpider`): the download ledger
  (`saveZip`, `runSpider`, `closedLedger`).

Machine integers are modelled as `Nat`/`Int`, floats as `ℚ`, fallible
parses as `Option`.  Python `set` iteration order is not deterministic; the
embedding represents a set of lines as a first-occurrence-deduplicated list
(`dedupFirst`), which fixes one deterministic representative of the set.
-/

namespace SECFTD

/-! ## Generic list utilities -/

/-- First-occurrence deduplication: keeps the first copy of each element,
in order.  Deterministic stand-in for accumulating lines into a Python
`set`. -/
def dedupFirst {α : Type} [DecidableEq α] : List α → List α
  | [] => []
  | x :: xs => x :: (dedupFirst xs).filter (fun y => y ≠ x)

/-! ## Characters and strings

Python compares strings by code point; `lexLe` is that order on the char
lists underlying Lean strings (Mathlib's `String.≤` does not kernel-reduce,
so we use our own executable comparison). -/

/-- Lexicographic (code-point) comparison of char lists, as Python compares
strings. -/
def lexLe : List Char → List Char → Bool
  | [], _ => true
  | _ :: _, [] => false
  | a :: as, b :: bs =>
    if a.toNat < b.toNat then true
    else if b.toNat < a.toNat then false
    else lexLe as bs

/-- Python string `<=` (code-point lexicographic). -/
def strLe (a b : String) : Bool := lexLe a.data b.data

/-- Whitespace test matching the characters stripped by polars
`str.strip_chars()` / Python `str.strip()` on this data. -/
def isWS (c : Char) : Bool := c = ' ' ∨ c = '\t' ∨ c = '\n' ∨ c = '\r'

/-- Strip leading and trailing whitespace (model of `str.strip_chars()`). -/
def trimWS (s : String) : String :=
  ⟨((s.data.dropWhile isWS).reverse.dropWhile isWS).reverse⟩

/-! ## clean.py — `convert_txt_csv` row model

A data-frame row is a list of nullable string cells; slot `cᵢ` is list
index `i-1`. -/

/-- A row of the polars frame in `convert_txt_csv`: positional nullable
string cells `c1..cN`. -/
abbrev Row := List (Option String)

/-- Model of `df.with_columns(pads)`: pad a row with nulls up to six slots
(`clean.py` lines 46-48). -/
def padTo6 (r : Row) : Row :=
  if r.length < 6 then r ++ List.replicate (6 - r.length) none else r

/-- Model of polars `.str.replace(r"^\|+|\|+$", "", n=1)` (the default
`str.replace` replaces only the first regex match): if the string starts
with pipes, remove that leading run; otherwise, if it ends with pipes,
remove that trailing run. -/
def stripPipesOnce (s : String) : String :=
  if s.data.head? = some '|' then ⟨s.data.dropWhile (fun c => c = '|')⟩
  else if s.data.getLast? = some '|' then
    ⟨(s.data.reverse.dropWhile (fun c => c = '|')).reverse⟩
  else s

/-- Modelled from the spec: "replace `c5` with `c5|c6` (pipe-joined, with
leading/trailing pipes stripped)" — strips both the leading and the
trailing pipe runs.  Used only to compare the spec's wording against the
code's `stripPipesOnce`. -/
def stripPipesBoth (s : String) : String :=
  ⟨((s.data.dropWhile (fun c => c = '|')).reverse.dropWhile
      (fun c => c = '|')).reverse⟩

/-- The `c7` fold of `clean.py` lines 51-62: when `c7` is non-null, `c5`
becomes the pipe-join of `c5`/`c6` (nulls as `""`) with the first pipe run
stripped, and `c6` becomes the old `c7`. -/
def c7fold (c5 c6 c7 : Option String) : Option String × Option String :=
  match c7 with
  | some v => (some (stripPipesOnce ((c5.getD "") ++ "|" ++ (c6.getD ""))), some v)
  | none => (c5, c6)

/-- Model of the `c7` repair block of `clean.py` lines 50-66: applies
`c7fold` to slots 5-7 and drops slot 7, keeping `c1..c6` and `c8+`. -/
def applyC7 (r : Row) : Row :=
  if 7 ≤ r.length then
    let p := c7fold ((r.get? 4).getD none) ((r.get? 5).getD none)
      ((r.get? 6).getD none)
    r.take 4 ++ [p.1, p.2] ++ r.drop 7
  else r

/-- Model of the row filter of `clean.py` lines 68-73: keep a row iff `c2`
is non-null and non-whitespace. -/
def c2keep (r : Row) : Bool :=
  match (r.get? 1).getD none with
  | some s => trimWS s ≠ ""
  | none => false

/-- The whole per-frame normalization of `convert_txt_csv`: pad, apply the
`c7` repair, filter on `c2`. -/
def normalizeRows (rows : List Row) : List Row :=
  ((rows.map padTo6).map applyC7).filter c2keep

/-- State threaded through the `convert_txt_csv` loop: content last written
to the (single) output path, the empty-log lines, the deleted source files,
and the written counter. -/
structure ConvSt where
  outContent : Option (List Row)
  emptyLog : List String
  removed : List String
  written : Nat
deriving DecidableEq

/-- One source in the `convert_txt_csv` loop: its relative path and its
parse result (`none` models `pl.read_csv` raising; `some rows` a parsed
frame). -/
abbrev Src := String × Option (List Row)

/-- One iteration of the `convert_txt_csv` loop (`clean.py` lines 16-91):
unreadable or empty sources append one empty-log entry and are kept; a
source with surviving rows is written to the fixed output path and then
deleted. -/
def processSource (st : ConvSt) (src : Src) : ConvSt :=
  match src.2 with
  | none => { st with emptyLog := st.emptyLog ++ [src.1] }
  | some rows =>
    if rows.isEmpty then { st with emptyLog := st.emptyLog ++ [src.1] }
    else
      let out := normalizeRows rows
      if out.isEmpty then { st with emptyLog := st.emptyLog ++ [src.1] }
      else
        { st with outContent := some out,
                  removed := st.removed ++ [src.1],
                  written := st.written + 1 }

/-- The `convert_txt_csv` loop over all candidate sources. -/
def runConvert (st : ConvSt) (srcs : List Src) : ConvSt :=
  srcs.foldl processSource st

/-- Rows that a source contributes if (and only if) it converts
successfully: the normalized batch when the frame parsed, was nonempty, and
survived filtering. -/
def successOut (src : Src) : Option (List Row) :=
  match src.2 with
  | none => none
  | some rows =>
    if rows.isEmpty then none
    else
      let out := normalizeRows rows
      if out.isEmpty then none else some out

/-- Python `PurePath.with_suffix(".csv")` on the last path component:
replace the extension after the last dot (a lone leading dot is not an
extension), or append `.csv` when there is none. -/
def withSuffixCsv (p : String) : String :=
  let r := p.data.reverse
  let comp := r.takeWhile (fun c => c ≠ '/')
  let rest := r.drop comp.length
  let ext := comp.takeWhile (fun c => c ≠ '.')
  let stem :=
    if ext.length = comp.length then comp.reverse
    else if ext.length + 1 = comp.length then comp.reverse
    else (comp.drop (ext.length + 1)).reverse
  ⟨rest.reverse ++ stem ++ ('.' :: 'c' :: 's' :: 'v' :: [])⟩

/-- Model of `out_path = out_root.with_suffix(".csv")` (`clean.py` line
84): computed inside the loop but ignoring the current source. -/
def out_path (out_root : String) (src : String) : String :=
  withSuffixCsv out_root

/-! ## period_parition.py — dates and period metadata -/

/-- Calendar date (year, month, day). -/
structure Date where
  y : Nat
  m : Nat
  d : Nat
deriving DecidableEq

/-- Gregorian leap-year rule. -/
def isLeap (y : Nat) : Bool := (y % 4 = 0 ∧ y % 100 ≠ 0) ∨ y % 400 = 0

/-- Days in a Gregorian month. -/
def daysInMonth (y m : Nat) : Nat :=
  if m = 2 then (if isLeap y then 29 else 28)
  else if m = 4 ∨ m = 6 ∨ m = 9 ∨ m = 11 then 30
  else 31

/-- A well-formed calendar date (as `datetime.date` / polars dates
guarantee). -/
def ValidDate (dt : Date) : Prop :=
  1 ≤ dt.y ∧ 1 ≤ dt.m ∧ dt.m ≤ 12 ∧ 1 ≤ dt.d ∧ dt.d ≤ daysInMonth dt.y dt.m

instance (dt : Date) : Decidable (ValidDate dt) := by
  unfold ValidDate; infer_instance

/-- Chronological strict order on dates (year, month, day lexicographic). -/
def dateLt (a b : Date) : Bool :=
  decide (a.y < b.y ∨ (a.y = b.y ∧ (a.m < b.m ∨ (a.m = b.m ∧ a.d < b.d))))

/-- Chronological non-strict order on dates. -/
def dateLe (a b : Date) : Bool :=
  decide (a.y < b.y ∨ (a.y = b.y ∧ (a.m < b.m ∨ (a.m = b.m ∧ a.d ≤ b.d))))

/-- Model of `dt.replace(day=k)`. -/
def replaceDay (dt : Date) (k : Nat) : Date := ⟨dt.y, dt.m, k⟩

/-- Model of `pl.col("date").dt.replace(day=1)` (`first_of_month`). -/
def firstOfMonth (dt : Date) : Date := replaceDay dt 1

/-- Model of polars `dt.offset_by("1mo")`: add one calendar month,
saturating the day to the target month's length. -/
def offsetOneMonth (dt : Date) : Date :=
  let y' := if dt.m = 12 then dt.y + 1 else dt.y
  let m' := if dt.m = 12 then 1 else dt.m + 1
  ⟨y', m', min dt.d (daysInMonth y' m')⟩

/-- Model of polars `dt.offset_by("-1d")`: subtract one day. -/
def offsetNegOneDay (dt : Date) : Date :=
  if 1 < dt.d then ⟨dt.y, dt.m, dt.d - 1⟩
  else if 1 < dt.m then ⟨dt.y, dt.m - 1, daysInMonth dt.y (dt.m - 1)⟩
  else ⟨dt.y - 1, 12, 31⟩

/-- The `end_of_month` expression of `period_parition.py` line 28:
`first_of_month.dt.offset_by("1mo").dt.offset_by("-1d")`. -/
def endOfMonth (dt : Date) : Date :=
  offsetNegOneDay (offsetOneMonth (firstOfMonth dt))

/-- The cutover date `date(2009, 7, 1)`. -/
def cutover : Date := ⟨2009, 7, 1⟩

/-- Decimal digits of a natural number (most significant first). -/
def natDigits (n : Nat) : List Char :=
  (Nat.toDigits 10 n)

/-- Chrono `%m`-style zero-padding to two digits. -/
def pad2 (n : Nat) : String :=
  if n < 10 then ⟨'0' :: natDigits n⟩ else ⟨natDigits n⟩

/-- Chrono `%Y`-style zero-padding to four digits. -/
def pad4 (n : Nat) : String :=
  if n < 10 then ⟨'0' :: '0' :: '0' :: natDigits n⟩
  else if n < 100 then ⟨'0' :: '0' :: natDigits n⟩
  else if n < 1000 then ⟨'0' :: natDigits n⟩
  else ⟨natDigits n⟩

/-- Model of `dt.strftime("%Y-%m")`: the year-month label. -/
def fmtYM (dt : Date) : String := pad4 dt.y ++ "-" ++ pad2 dt.m

/-- The `scheme` column of `period_parition.py` lines 32-36. -/
def scheme (dt : Date) : String :=
  if dateLt dt cutover then "monthly_pre_2009_07" else "semi_monthly_post_2009_07"

/-- The `period` column of `period_parition.py` lines 38-46. -/
def period (dt : Date) : String :=
  if dateLt dt cutover then fmtYM dt
  else if dt.d ≤ 15 then fmtYM dt ++ "-H1" else fmtYM dt ++ "-H2"

/-- The `period_start` column of `period_parition.py` lines 48-53. -/
def periodStart (dt : Date) : Date :=
  if dateLt dt cutover then firstOfMonth dt
  else if dt.d ≤ 15 then firstOfMonth dt else replaceDay dt 16

/-- The `period_end` column of `period_parition.py` lines 55-60. -/
def periodEnd (dt : Date) : Date :=
  if dateLt dt cutover then endOfMonth dt
  else if dt.d ≤ 15 then replaceDay dt 15 else endOfMonth dt

/-- The `release_date_est` column of `period_parition.py` lines 63-72: H1
releases at end of the same month, H2 on the 15th of the next month, no
estimate for the monthly scheme. -/
def releaseDateEst (dt : Date) : Option Date :=
  if scheme dt = "semi_monthly_post_2009_07" then
    some (if dt.d ≤ 15 then endOfMonth dt
          else replaceDay (offsetOneMonth (firstOfMonth dt)) 15)
  else none

/-! ## period_parition.py — aggregation -/

/-- One master-store record as typed by `period_parition.py` lines 13-20:
parsed settlement date, nullable quantity, nullable price. -/
structure FtdRec where
  date : Date
  qty : Option Int
  price : Option ℚ
deriving DecidableEq

/-- The `weight` column (`qty * price`, null when either side is null). -/
def weight (r : FtdRec) : Option ℚ :=
  match r.qty, r.price with
  | some q, some p => some ((q : ℚ) * p)
  | _, _ => none

/-- The `group_by` key of the aggregation: scheme, period, period
boundaries and release estimate. -/
structure PKey where
  scheme : String
  period : String
  period_start : Date
  period_end : Date
  release_date_est : Option Date
deriving DecidableEq

/-- The group key derived from a record's settlement date. -/
def keyOf (r : FtdRec) : PKey :=
  ⟨scheme r.date, period r.date, periodStart r.date, periodEnd r.date,
   releaseDateEst r.date⟩

/-- The records of one period group. -/
def groupRows (recs : List FtdRec) (k : PKey) : List FtdRec :=
  recs.filter (fun r => decide (keyOf r = k))

/-- One output row of the `full` aggregate (`period_parition.py` lines
75-85). -/
structure AggRow where
  key : PKey
  rows : Nat
  sum_qty : Int
  mean_price : Option ℚ
  sum_weight : ℚ
deriving DecidableEq

/-- Aggregate one group: `pl.len()`, null-skipping `sum` of `qty`,
null-skipping `mean` of `price` (null when all prices are null),
null-skipping `sum` of `weight` — polars aggregation semantics. -/
def aggRow (recs : List FtdRec) (k : PKey) : AggRow :=
  let g := groupRows recs k
  let qs := g.filterMap (fun r => r.qty)
  let ps := g.filterMap (fun r => r.price)
  let ws := g.filterMap weight
  ⟨k, g.length, qs.sum,
   if ps.isEmpty then none else some (ps.sum / (ps.length : ℚ)),
   ws.sum⟩

/-- The `full` aggregate: one row per distinct group key, sorted by
`period_start` ascending (`.sort("period_start")`, a stable sort modelled
by `List.insertionSort`). -/
def aggregate (recs : List FtdRec) : List AggRow :=
  List.insertionSort (fun a b => dateLe a.key.period_start b.key.period_start = true)
    ((dedupFirst (recs.map keyOf)).map (aggRow recs))

/-! ## sample.process.py — `_save_content_to_file` (merge-append writer) -/

/-- The first comma-delimited field of a line (`row.split(",")[0]`). -/
def firstField (s : String) : String := ⟨s.data.takeWhile (fun c => c ≠ ',')⟩

/-- Numeric value of two digit characters, when both are digits. -/
def twoDigit (a b : Char) : Option Nat :=
  if a.isDigit ∧ b.isDigit then some ((a.toNat - 48) * 10 + (b.toNat - 48))
  else none

/-- Numeric value of one digit character. -/
def oneDigit (a : Char) : Option Nat :=
  if a.isDigit then some (a.toNat - 48) else none

/-- CPython `strptime` month/day matching after the four-digit year: `%m`
matches `1[0-2]|0[1-9]|[1-9]` and `%d` matches `3[01]|[12]\d|0[1-9]|[1-9]`,
with regex backtracking (two-digit forms preferred) and the whole string
consumed. -/
def parseMD : List Char → Option (Nat × Nat)
  | [a, b, c, d] =>
    match twoDigit a b, twoDigit c d with
    | some m, some dd =>
      if 1 ≤ m ∧ m ≤ 12 ∧ 1 ≤ dd ∧ dd ≤ 31 then some (m, dd) else none
    | _, _ => none
  | [a, b, c] =>
    match twoDigit a b, oneDigit c with
    | some m, some dd =>
      if 1 ≤ m ∧ m ≤ 12 ∧ 1 ≤ dd ∧ dd ≤ 9 then some (m, dd)
      else
        match oneDigit a, twoDigit b c with
        | some m', some dd' =>
          if 1 ≤ m' ∧ m' ≤ 9 ∧ 1 ≤ dd' ∧ dd' ≤ 31 then some (m', dd') else none
        | _, _ => none
    | _, _ =>
      match oneDigit a, twoDigit b c with
      | some m', some dd' =>
        if 1 ≤ m' ∧ m' ≤ 9 ∧ 1 ≤ dd' ∧ dd' ≤ 31 then some (m', dd') else none
      | _, _ => none
  | [a, b] =>
    match oneDigit a, oneDigit b with
    | some m, some dd =>
      if 1 ≤ m ∧ m ≤ 9 ∧ 1 ≤ dd ∧ dd ≤ 9 then some (m, dd) else none
    | _, _ => none
  | _ => none

/-- Model of `datetime.strptime(s, "%Y%m%d").date()`: four-digit year,
then month/day per `parseMD`, then the `datetime` constructor's calendar
validation (`ValueError` on failure gives `none`). -/
def parseYmd (s : String) : Option Date :=
  match s.data with
  | y1 :: y2 :: y3 :: y4 :: rest =>
    match twoDigit y1 y2, twoDigit y3 y4 with
    | some hi, some lo =>
      let y := hi * 100 + lo
      match parseMD rest with
      | some (m, d) =>
        if 1 ≤ y ∧ d ≤ daysInMonth y m then some ⟨y, m, d⟩ else none
      | none => none
    | _, _ => none
  | _ => none

/-- The `date_key` of `_save_content_to_file` lines 434-439: parse the
first field as `%Y%m%d`, unparsable lines get the sentinel
`dt.date(1900, 1, 1)`. -/
def dateKey (s : String) : Date := (parseYmd (firstField s)).getD ⟨1900, 1, 1⟩

/-- The sort key comparison used by `sorted(...)` in
`_save_content_to_file`: lexicographic on the first field for the
`universe` destination, chronological on `dateKey` otherwise. -/
def lineKeyLe (isUniverse : Bool) (a b : String) : Bool :=
  if isUniverse then strLe (firstField a) (firstField b)
  else dateLe (dateKey a) (dateKey b)

/-- The merged line set of `_save_content_to_file`: the destination's
non-empty lines unioned with the batch's non-empty lines.  The Python
`set` is modelled as a first-occurrence-deduplicated list. -/
def mergedSet (existing : Option (List String)) (newLines : List String) :
    List String :=
  dedupFirst ((existing.getD []).filter (fun l => l ≠ "") ++
    newLines.filter (fun l => l ≠ ""))

/-- Content-level model of `_save_content_to_file` (lines 406-445):
returns the new destination content, or `none` when the function returns
without writing (empty batch, or empty merged set).  Python's stable
`sorted` over the set is modelled by the stable `List.insertionSort` with
the destination's key order. -/
def saveContent (existing : Option (List String)) (newLines : List String)
    (isUniverse : Bool) : Option (List String) :=
  if newLines.isEmpty then none
  else if (mergedSet existing newLines).isEmpty then none
  else some (List.insertionSort (fun a b => lineKeyLe isUniverse a b = true)
    (mergedSet existing newLines))

/-- Destination content after one `_save_content_to_file` call: the new
content when a write happened, the previous content otherwise. -/
def contentAfter (existing : Option (List String)) (newLines : List String)
    (isUniverse : Bool) : Option (List String) :=
  match saveContent existing newLines isUniverse with
  | some c => some c
  | none => existing

/-! ## sample.process.py — paths and the temp-file/rename step -/

/-- A file-system path as a list of components. -/
abbrev FsPath := List String

/-- The containing directory of a path. -/
def parentDir (p : FsPath) : FsPath := p.dropLast

/-- Model of the constructor's universe folder: `destination_folder`
joined with `universe` (line 67). -/
def universe_folder (root : FsPath) : FsPath := root ++ ["universe"]

/-- Model of the constructor's temp folder: `destination_folder` joined
with `tmp` (line 68). -/
def tmp_folder (root : FsPath) : FsPath := root ++ ["tmp"]

/-- Model of the final path: the destination folder argument joined with
the name plus a `.csv` suffix (line 409). -/
def final_path (destination_folder : FsPath) (name : String) : FsPath :=
  destination_folder ++ [name ++ ".csv"]

/-- Model of the temp path: the temp folder joined with a fresh uuid hex
plus a `.tmp` suffix (line 440). -/
def tmp_name (root : FsPath) (uuidHex : String) : FsPath :=
  tmp_folder root ++ [uuidHex ++ ".tmp"]

/-- A file system: contents indexed by path (`none` = file absent). -/
def Fs := FsPath → Option (List String)

/-- Writing a file (complete content at one path). -/
def fsWrite (fs : Fs) (p : FsPath) (c : List String) : Fs :=
  fun q => if q = p then some c else fs q

/-- Model of `Path.replace` / `os.replace`: atomic rename of `src` over
`dst`. -/
def fsRename (fs : Fs) (src dst : FsPath) : Fs :=
  fun q => if q = dst then fs src else if q = src then none else fs q

/-- The observable file-system states during the write step of
`_save_content_to_file` (lines 440-444): before the temp write, after the
temp write, and after the rename.  An interruption leaves the system in
one of these states. -/
def saveStates (fs0 : Fs) (root destArg : FsPath) (name uuidHex : String)
    (content : List String) : List Fs :=
  [fs0,
   fsWrite fs0 (tmp_name root uuidHex) content,
   fsRename (fsWrite fs0 (tmp_name root uuidHex) content)
     (tmp_name root uuidHex) (final_path destArg name)]

/-! ## extract.py — ledger and the download spider -/

/-- Spider run state: URLs appended to `saved_urls` and the set of URLs
whose zip file has been durably written (`out_path.write_bytes`
succeeded). -/
structure SpiderSt where
  savedUrls : List String
  files : List String
deriving DecidableEq

/-- One zip response: its URL, HTTP status, and whether the
`write_bytes` block succeeds. -/
structure ZipResp where
  url : String
  status : Nat
  writeOk : Bool
deriving DecidableEq

/-- Model of `SECFtdSpider.save_zip` (extract.py lines 182-195): non-200
responses are dropped; on a successful write the URL is recorded in
`saved_urls` (the append happens after the write, inside the same `try`);
a failed write records nothing. -/
def saveZip (st : SpiderSt) (r : ZipResp) : SpiderSt :=
  if r.status ≠ 200 then st
  else if r.writeOk then
    { files := st.files ++ [r.url], savedUrls := st.savedUrls ++ [r.url] }
  else st

/-- A spider run over a list of zip responses. -/
def runSpider (st : SpiderSt) (rs : List ZipResp) : SpiderSt :=
  rs.foldl saveZip st

/-- Model of `SECFtdSpider.closed` (extract.py lines 197-210): re-load the
ledger from disk, union with this run's `saved_urls`, persist sorted.
`current` is the set loaded from disk at close time. -/
def closedLedger (current : List String) (st : SpiderSt) : List String :=
  List.insertionSort (fun a b => strLe a b = true)
    (dedupFirst (current ++ st.savedUrls))

/-! ## Concrete sample values used by witnesses -/

/-- A one-record master store used to witness the aggregation theorem. -/
def recsW : List FtdRec := [⟨⟨2009, 6, 30⟩, some 100, some 10⟩]

/-- The aggregate row produced from `recsW`. -/
def aggW : AggRow :=
  ⟨⟨"monthly_pre_2009_07", "2009-06", ⟨2009, 6, 1⟩, ⟨2009, 6, 30⟩, none⟩,
   1, 100, some 10, 1000⟩

/-- The period key of the single record of `recsW`. -/
def kW : PKey :=
  ⟨"monthly_pre_2009_07", "2009-06", ⟨2009, 6, 1⟩, ⟨2009, 6, 30⟩, none⟩

/-! # Theorems -/

/-! ## List and order helper lemmas -/

theorem mem_dedupFirst {α : Type} [DecidableEq α] (a : α) (l : List α) :
    a ∈ dedupFirst l ↔ a ∈ l := by
  induction l with
  | nil => simp [dedupFirst]
  | cons x xs ih =>
    simp only [dedupFirst, List.mem_cons, List.mem_filter, ih]
    constructor
    · rintro (rfl | ⟨h, _⟩)
      · exact Or.inl rfl
      · exact Or.inr h
    · rintro (rfl | h)
      · exact Or.inl rfl
      · by_cases hx : a = x
        · exact Or.inl hx
        · exact Or.inr ⟨h, by simpa using hx⟩

theorem nodup_dedupFirst {α : Type} [DecidableEq α] (l : List α) :
    (dedupFirst l).Nodup := by
  induction l with
  | nil => simp [dedupFirst]
  | cons x xs ih =>
    refine List.Nodup.cons ?_ (List.Nodup.filter _ ih)
    intro hmem
    rcases List.mem_filter.mp hmem with ⟨_, hne⟩
    simp at hne

theorem dedupFirst_eq_self {α : Type} [DecidableEq α] {l : List α}
    (h : l.Nodup) : dedupFirst l = l := by
  induction l with
  | nil => rfl
  | cons x xs ih =>
    rcases List.nodup_cons.mp h with ⟨hx, hxs⟩
    simp only [dedupFirst, ih hxs]
    rw [List.filter_eq_self.mpr]
    intro a ha
    simp only [decide_eq_true_eq]
    rintro rfl
    exact hx ha

theorem dedupFirst_append {α : Type} [DecidableEq α] (l₁ l₂ : List α) :
    dedupFirst (l₁ ++ l₂) =
      dedupFirst l₁ ++ (dedupFirst l₂).filter (fun y => decide (y ∉ l₁)) := by
  induction l₁ with
  | nil => simp [dedupFirst]
  | cons x xs ih =>
    rw [List.cons_append]
    show x :: (dedupFirst (xs ++ l₂)).filter (fun y => decide (y ≠ x)) = _
    rw [ih, List.filter_append]
    show _ = (x :: (dedupFirst xs).filter (fun y => decide (y ≠ x))) ++ _
    rw [List.cons_append]
    congr 1
    congr 1
    rw [List.filter_filter]
    apply List.filter_congr
    intro a _
    by_cases hax : a = x <;> by_cases haxs : a ∈ xs <;>
      simp [hax, haxs, List.mem_cons]

theorem dedupFirst_append_subset {α : Type} [DecidableEq α] {l₁ l₂ : List α}
    (h : ∀ y ∈ l₂, y ∈ l₁) : dedupFirst (l₁ ++ l₂) = dedupFirst l₁ := by
  rw [dedupFirst_append]
  have : (dedupFirst l₂).filter (fun y => decide (y ∉ l₁)) = [] := by
    rw [List.filter_eq_nil_iff]
    intro a ha
    have : a ∈ l₂ := (mem_dedupFirst a l₂).mp ha
    simp [h a this]
  rw [this, List.append_nil]

theorem lexLe_cons (x y : Char) (xs ys : List Char) :
    lexLe (x :: xs) (y :: ys) =
      if x.toNat < y.toNat then true
      else if y.toNat < x.toNat then false
      else lexLe xs ys := rfl

theorem lexLe_trans : ∀ (a b c : List Char),
    lexLe a b = true → lexLe b c = true → lexLe a c = true := by
  intro a
  induction a with
  | nil => intro b c _ _; rfl
  | cons x xs ih =>
    intro b c hab hbc
    cases b with
    | nil => simp [lexLe] at hab
    | cons y ys =>
      cases c with
      | nil => simp [lexLe] at hbc
      | cons z zs =>
        rcases Nat.lt_trichotomy x.toNat y.toNat with h1 | h1 | h1
        · rcases Nat.lt_trichotomy y.toNat z.toNat with h2 | h2 | h2
          · simp [lexLe_cons, show x.toNat < z.toNat by omega]
          · simp [lexLe_cons, show x.toNat < z.toNat by omega]
          · simp [lexLe_cons, show ¬y.toNat < z.toNat by omega, h2] at hbc
        · rcases Nat.lt_trichotomy y.toNat z.toNat with h2 | h2 | h2
          · simp [lexLe_cons, show x.toNat < z.toNat by omega]
          · have hab' : lexLe xs ys = true := by
              simpa [lexLe_cons, show ¬x.toNat < y.toNat by omega,
                show ¬y.toNat < x.toNat by omega] using hab
            have hbc' : lexLe ys zs = true := by
              simpa [lexLe_cons, show ¬y.toNat < z.toNat by omega,
                show ¬z.toNat < y.toNat by omega] using hbc
            simpa [lexLe_cons, show ¬x.toNat < z.toNat by omega,
              show ¬z.toNat < x.toNat by omega] using ih ys zs hab' hbc'
          · simp [lexLe_cons, show ¬y.toNat < z.toNat by omega, h2] at hbc
        · simp [lexLe_cons, show ¬x.toNat < y.toNat by omega, h1] at hab

theorem lexLe_total : ∀ (a b : List Char),
    lexLe a b = true ∨ lexLe b a = true := by
  intro a
  induction a with
  | nil => intro b; exact Or.inl rfl
  | cons x xs ih =>
    intro b
    cases b with
    | nil => exact Or.inr rfl
    | cons y ys =>
      rcases Nat.lt_trichotomy x.toNat y.toNat with h1 | h1 | h1
      · exact Or.inl (by simp [lexLe_cons, h1])
      · rcases ih ys with h | h
        · exact Or.inl (by simp [lexLe_cons, h1, h])
        · exact Or.inr (by simp [lexLe_cons, h1.symm, h])
      · exact Or.inr (by simp [lexLe_cons, h1])

theorem strLe_trans (a b c : String) (hab : strLe a b = true)
    (hbc : strLe b c = true) : strLe a c = true :=
  lexLe_trans a.data b.data c.data hab hbc

theorem strLe_total (a b : String) : strLe a b = true ∨ strLe b a = true :=
  lexLe_total a.data b.data

theorem dateLe_trans (a b c : Date) (hab : dateLe a b = true)
    (hbc : dateLe b c = true) : dateLe a c = true := by
  simp only [dateLe, decide_eq_true_eq] at hab hbc ⊢
  omega

theorem dateLe_total (a b : Date) : dateLe a b = true ∨ dateLe b a = true := by
  simp only [dateLe, decide_eq_true_eq]
  omega

theorem lineKeyLe_trans (u : Bool) (a b c : String)
    (hab : lineKeyLe u a b = true) (hbc : lineKeyLe u b c = true) :
    lineKeyLe u a c = true := by
  cases u
  · exact dateLe_trans _ _ _ hab hbc
  · exact strLe_trans _ _ _ hab hbc

theorem lineKeyLe_total (u : Bool) (a b : String) :
    lineKeyLe u a b = true ∨ lineKeyLe u b a = true := by
  cases u
  · exact dateLe_total _ _
  · exact strLe_total _ _

theorem head?_mem_of_eq {α : Type} {l : List α} {e : α}
    (h : l.head? = some e) : e ∈ l := by
  cases l with
  | nil => simp at h
  | cons x xs => simp at h; simp [h]

theorem getLast?_mem_of_eq {α : Type} : ∀ {l : List α} {e : α},
    l.getLast? = some e → e ∈ l := by
  intro l
  induction l with
  | nil => intro e h; simp at h
  | cons x xs ih =>
    intro e h
    cases xs with
    | nil => simp at h; simp [h]
    | cons y ys =>
      rw [List.getLast?_cons_cons] at h
      exact List.mem_cons_of_mem _ (ih h)

/-! ## Pipe-stripping lemmas (C1) -/

theorem pipeFree_dropWhile {l : List Char} (h : '|' ∉ l) :
    l.dropWhile (fun c => decide (c = '|')) = l := by
  cases l with
  | nil => rfl
  | cons x xs =>
    have hx : x ≠ '|' := fun hc => h (hc ▸ List.mem_cons_self x xs)
    simp [List.dropWhile_cons, hx]

theorem stripPipesOnce_eq_both_of_pipeFree (a b : String)
    (ha : '|' ∉ a.data) (hb : '|' ∉ b.data) :
    stripPipesOnce (a ++ "|" ++ b) = stripPipesBoth (a ++ "|" ++ b) := by
  have hdata : (a ++ "|" ++ b).data = a.data ++ '|' :: b.data := by
    rw [String.data_append, String.data_append]
    show a.data ++ ['|'] ++ b.data = _
    simp
  have hbrev : '|' ∉ b.data.reverse := fun hc => hb (List.mem_reverse.mp hc)
  have harev : '|' ∉ a.data.reverse := fun hc => ha (List.mem_reverse.mp hc)
  cases hcs : a.data with
  | nil =>
    have hd : (a ++ "|" ++ b).data = '|' :: b.data := by rw [hdata, hcs]; rfl
    rw [stripPipesOnce, stripPipesBoth, hd]
    have h1 : ('|' :: b.data).head? = some '|' := rfl
    rw [if_pos h1]
    have h2 : ('|' :: b.data).dropWhile (fun c => decide (c = '|')) = b.data := by
      rw [List.dropWhile_cons]
      simp only [decide_True, if_true]
      exact pipeFree_dropWhile hb
    rw [h2, pipeFree_dropWhile hbrev, List.reverse_reverse]
  | cons c cs =>
    have hcpipe : c ≠ '|' := by
      intro hc
      exact ha (hcs ▸ hc ▸ List.mem_cons_self c cs)
    have hd : (a ++ "|" ++ b).data = c :: (cs ++ '|' :: b.data) := by
      rw [hdata, hcs]; rfl
    have hhead : (a ++ "|" ++ b).data.head? ≠ some '|' := by
      rw [hd]
      simp [hcpipe]
    have hfront : (a ++ "|" ++ b).data.dropWhile (fun c => decide (c = '|'))
        = (a ++ "|" ++ b).data := by
      rw [hd, List.dropWhile_cons]
      simp [hcpipe]
    cases hds : b.data with
    | nil =>
      have hd2 : (a ++ "|" ++ b).data = a.data ++ ['|'] := by
        rw [hdata, hds]
      have hlast : (a ++ "|" ++ b).data.getLast? = some '|' := by
        rw [hd2, List.getLast?_append]
        rfl
      have hrev : (a ++ "|" ++ b).data.reverse = '|' :: a.data.reverse := by
        rw [hd2, List.reverse_append]
        rfl
      rw [stripPipesOnce, stripPipesBoth, if_neg hhead, if_pos hlast, hfront,
        hrev, List.dropWhile_cons]
    | cons d ds =>
      have hlastne : (a ++ "|" ++ b).data.getLast? ≠ some '|' := by
        rw [hdata, hds, List.getLast?_append]
        intro hc
        cases h4 : ('|' :: d :: ds).getLast? with
        | none =>
          exact absurd (List.getLast?_eq_none_iff.mp h4) (by simp)
        | some e =>
          rw [h4, Option.or_some] at hc
          have he : e = '|' := by injection hc
          rw [List.getLast?_cons_cons] at h4
          have h5 : '|' ∈ (d :: ds) := getLast?_mem_of_eq (he ▸ h4)
          exact (hds ▸ hb) h5
      have hrevback : (a ++ "|" ++ b).data.reverse.dropWhile
          (fun c => decide (c = '|')) = (a ++ "|" ++ b).data.reverse := by
        rw [hdata, hds, List.reverse_append, List.reverse_cons]
        have : (d :: ds).reverse = ds.reverse ++ [d] := List.reverse_cons d ds
        rw [show ((d :: ds).reverse ++ ['|']) ++ a.data.reverse
            = (d :: ds).reverse ++ ('|' :: a.data.reverse) by simp]
        have hdpipe : '|' ∉ (d :: ds).reverse := by
          rw [← hds]; exact hbrev
        cases hrv : (d :: ds).reverse with
        | nil => exact absurd hrv (by simp)
        | cons e es =>
          have hepipe : e ≠ '|' := by
            intro hc
            exact hdpipe (hrv ▸ hc ▸ List.mem_cons_self e es)
          rw [List.cons_append, List.dropWhile_cons]
          simp [hepipe]
      rw [stripPipesOnce, stripPipesBoth, if_neg hhead, if_neg hlastne,
        hfront, hrevback, List.reverse_reverse]

/-! ## Claim C1 — the c7 column repair -/

/-- Claim C1 (amended): for every row with a 7th slot whose value is
non-null, the repaired row's `c5` is the pipe-join of the old `c5` and
`c6` with the first pipe run removed (the leading run if present,
otherwise the trailing run) — which coincides with stripping both the
leading and trailing pipe runs whenever the joined fields contain no pipe
character, as holds for fields split on the pipe delimiter; `c6` becomes
the old `c7`'s value, and the `c7` slot is discarded. -/
theorem c7_repair_fold (r : Row) (v : String)
    (h7 : 7 ≤ r.length) (hv : r.get? 6 = some (some v)) :
    (applyC7 r).get? 4 = some (some (stripPipesOnce
      ((((r.get? 4).getD none).getD "") ++ "|" ++ (((r.get? 5).getD none).getD "")))) ∧
    (applyC7 r).get? 5 = some (some v) ∧
    (applyC7 r).length = r.length - 1 ∧
    ∀ a b : String, '|' ∉ a.data → '|' ∉ b.data →
      stripPipesOnce (a ++ "|" ++ b) = stripPipesBoth (a ++ "|" ++ b) := by
  rcases r with _ | ⟨a1, _ | ⟨a2, _ | ⟨a3, _ | ⟨a4, _ | ⟨a5, _ | ⟨a6, _ | ⟨a7, rest⟩⟩⟩⟩⟩⟩⟩ <;>
    try simp at h7
  have hv' : a7 = some v := by
    have hg : (a1 :: a2 :: a3 :: a4 :: a5 :: a6 :: a7 :: rest).get? 6 = some a7 := rfl
    rw [hg] at hv
    exact Option.some.inj hv
  subst hv'
  have hlen : 7 ≤ (a1 :: a2 :: a3 :: a4 :: a5 :: a6 :: some v :: rest).length := by
    simp
  refine ⟨?_, ?_, ?_, fun a b ha hb => stripPipesOnce_eq_both_of_pipeFree a b ha hb⟩
  · simp [applyC7, c7fold, hlen]
  · simp [applyC7, c7fold, hlen]
  · simp [applyC7, c7fold, hlen]

/-- Witness for C1 at the spec's example row: `c5` folds to
`"DESC|EXTRA"`, `c6` becomes `"c7val"`, and the row shrinks to six
slots. -/
theorem c7_repair_fold_witness :
    (applyC7 [some "20240101", some "CUSIP1", some "SYM", some "100",
      some "DESC", some "EXTRA", some "c7val"]).get? 4 = some (some "DESC|EXTRA") ∧
    (applyC7 [some "20240101", some "CUSIP1", some "SYM", some "100",
      some "DESC", some "EXTRA", some "c7val"]).get? 5 = some (some "c7val") ∧
    (applyC7 [some "20240101", some "CUSIP1", some "SYM", some "100",
      some "DESC", some "EXTRA", some "c7val"]).length = 6 := by
  have h := c7_repair_fold
    [some "20240101", some "CUSIP1", some "SYM", some "100",
     some "DESC", some "EXTRA", some "c7val"] "c7val" (by decide) (by decide)
  refine ⟨?_, h.2.1, ?_⟩
  · rw [h.1]; decide
  · rw [h.2.2.1]; decide

/-- Counterexample for C1 as stated: when the joined fields themselves
contain pipes (reachable through quoted fields), the code removes only the
first pipe run — the repaired `c5` is `"a|b|"`, not the fully stripped
`"a|b"` that the claim's "leading and trailing pipes stripped" demands. -/
theorem c7_repair_counterexample :
    applyC7 [some "20240101", some "CUSIP1", some "SYM", some "100",
      some "|a", some "b|", some "c7val"]
      = [some "20240101", some "CUSIP1", some "SYM", some "100",
         some "a|b|", some "c7val"] ∧
    stripPipesBoth ("|a" ++ "|" ++ "b|") = "a|b" ∧
    ("a|b|" : String) ≠ "a|b" := by
  exact ⟨by decide, by decide, by decide⟩

/-! ## Claim C8 — rows with empty c2 are dropped -/

theorem applyC7_get?1 (l : Row) : (applyC7 l).get? 1 = l.get? 1 := by
  rcases l with _ | ⟨a1, _ | ⟨a2, t⟩⟩
  · simp [applyC7]
  · simp [applyC7]
  · simp only [applyC7]
    split <;> simp

theorem padTo6_get?1 (r : Row) :
    ((padTo6 r).get? 1).getD none = (r.get? 1).getD none := by
  rcases r with _ | ⟨a, _ | ⟨b, t⟩⟩
  · simp [padTo6]
  · simp [padTo6]
  · simp only [padTo6]
    split <;> simp

/-- Claim C8: a row whose `c2` slot is null (or absent) or whose `c2`
value strips to the empty string is never present (as its normalized
image) in the normalizer's output, whatever the other fields hold. -/
theorem c2_filter_excludes (rows : List Row) (r : Row)
    (hbad : (r.get? 1).getD none = none ∨
      ∃ s, (r.get? 1).getD none = some s ∧ trimWS s = "") :
    applyC7 (padTo6 r) ∉ normalizeRows rows := by
  intro hmem
  have hkeep : c2keep (applyC7 (padTo6 r)) = true :=
    (List.mem_filter.mp hmem).2
  have hx : ((applyC7 (padTo6 r)).get? 1).getD none = (r.get? 1).getD none := by
    rw [applyC7_get?1]
    exact padTo6_get?1 r
  rcases hbad with h | ⟨s, hs, hts⟩
  · rw [c2keep, hx, h] at hkeep
    simp at hkeep
  · rw [c2keep, hx, hs] at hkeep
    simp [hts] at hkeep

/-- Witness for C8: a row with whitespace-only `c2` is excluded. -/
theorem c2_filter_excludes_witness :
    applyC7 (padTo6 [some "20240101", some "  "]) ∉
      normalizeRows [[some "20240101", some "  "]] :=
  c2_filter_excludes [[some "20240101", some "  "]]
    [some "20240101", some "  "] (Or.inr ⟨"  ", by decide, by decide⟩)

/-! ## Claim C7 — empty sources are logged, never deleted -/

/-- Claim C7: a source that is unreadable, parses to an empty frame, or
loses all rows to repair/filtering only appends its (one) relative path to
the empty-log; the source is not deleted, nothing is written, and the
written counter is unchanged. -/
theorem empty_source_logged (st : ConvSt) (src : Src)
    (h : src.2 = none ∨ src.2 = some [] ∨
      ∃ rows, src.2 = some rows ∧ normalizeRows rows = []) :
    processSource st src = { st with emptyLog := st.emptyLog ++ [src.1] } := by
  rcases h with h | h | ⟨rows, h, hn⟩
  · simp [processSource, h]
  · simp [processSource, h]
  · rcases hrows : rows with _ | ⟨r0, rs⟩
    · simp [processSource, h, hrows]
    · rw [hrows] at hn
      simp [processSource, h, hrows, hn]

/-- Witness for C7 at a source whose only row has an empty `c2`. -/
theorem empty_source_logged_witness :
    processSource ⟨none, [], [], 0⟩ ("sub/f1.txt", some [[some "x", some " "]]) =
      ⟨none, ["sub/f1.txt"], [], 0⟩ :=
  empty_source_logged ⟨none, [], [], 0⟩ ("sub/f1.txt", some [[some "x", some " "]])
    (Or.inr (Or.inr ⟨[[some "x", some " "]], rfl, by decide⟩))

/-! ## Claim C5 — single fixed output path, last writer wins -/

theorem processSource_outContent (st : ConvSt) (src : Src) :
    (processSource st src).outContent =
      match successOut src with
      | some o => some o
      | none => st.outContent := by
  rcases h : src.2 with _ | rows
  · simp [processSource, successOut, h]
  · by_cases he : rows.isEmpty
    · simp [processSource, successOut, h, he]
    · by_cases hn : (normalizeRows rows).isEmpty
      · simp [processSource, successOut, h, he, hn]
      · simp [processSource, successOut, h, he, hn]

/-- Claim C5: the destination path of a successful conversion is the same
fixed path (`out_root` with its suffix replaced by `.csv`) for every
source, and after a run the output content is exactly the normalized rows
of the last successfully converted source (unchanged when no source
succeeds). -/
theorem fixed_out_path_last_wins :
    (∀ (out_root s1 s2 : String), out_path out_root s1 = out_path out_root s2) ∧
    ∀ (st : ConvSt) (srcs : List Src),
      (runConvert st srcs).outContent =
        match (srcs.filterMap successOut).getLast? with
        | some o => some o
        | none => st.outContent := by
  refine ⟨fun _ _ _ => rfl, ?_⟩
  intro st srcs
  induction srcs generalizing st with
  | nil => rfl
  | cons s ss ih =>
    show (runConvert (processSource st s) ss).outContent = _
    rw [ih (processSource st s), processSource_outContent]
    rcases hs : successOut s with _ | o
    · rw [List.filterMap_cons]
      simp [hs]
    · rw [List.filterMap_cons]
      simp only [hs]
      rcases hl : (ss.filterMap successOut) with _ | ⟨x, xs⟩
      · simp
      · rw [List.getLast?_cons_cons]
        rcases h2 : (x :: xs).getLast? with _ | o2
        · exact absurd (List.getLast?_eq_none_iff.mp h2) (by simp)
        · simp

/-! ## Claim C2 — period assignment and release-date estimates -/

theorem daysInMonth_pos (y m : Nat) : 0 < daysInMonth y m := by
  unfold daysInMonth
  split_ifs <;> omega

theorem endOfMonth_eq_last_day (dt : Date) (hm1 : 1 ≤ dt.m) (hm2 : dt.m ≤ 12) :
    endOfMonth dt = ⟨dt.y, dt.m, daysInMonth dt.y dt.m⟩ := by
  by_cases h12 : dt.m = 12
  · have e1 : offsetOneMonth (firstOfMonth dt) = ⟨dt.y + 1, 1, 1⟩ := by
      have h31 : daysInMonth (dt.y + 1) 1 = 31 := by simp [daysInMonth]
      simp [offsetOneMonth, firstOfMonth, replaceDay, h12, h31]
    have e2 : offsetNegOneDay ⟨dt.y + 1, 1, 1⟩ = ⟨dt.y, 12, 31⟩ := by
      simp [offsetNegOneDay]
    have e3 : daysInMonth dt.y 12 = 31 := by simp [daysInMonth, h12]
    rw [endOfMonth, e1, e2, h12, e3]
  · have hpos := daysInMonth_pos dt.y (dt.m + 1)
    have e1 : offsetOneMonth (firstOfMonth dt) = ⟨dt.y, dt.m + 1, 1⟩ := by
      simp only [offsetOneMonth, firstOfMonth, replaceDay, if_neg h12]
      congr 1
      omega
    have e2 : offsetNegOneDay ⟨dt.y, dt.m + 1, 1⟩ =
        ⟨dt.y, dt.m, daysInMonth dt.y dt.m⟩ := by
      simp [offsetNegOneDay, show ¬(1 : Nat) < 1 by omega,
        show 1 < dt.m + 1 by omega]
    rw [endOfMonth, e1, e2]

/-- Claim C2: a settlement date before the cutover 2009-07-01 gets the
monthly scheme (labelled `monthly_pre_2009_07`), period label `%Y-%m`,
period bounds the first and last calendar day of its month and no release
estimate; on/after the cutover with day ≤ 15 it gets `%Y-%m-H1`, bounds
1st..15th and release estimate the last day of the month; otherwise
`%Y-%m-H2`, bounds 16th..last day and release estimate the 15th of the
following month. -/
theorem period_assignment (dt : Date) (h : ValidDate dt) :
    (dateLt dt cutover = true →
      scheme dt = "monthly_pre_2009_07" ∧
      period dt = fmtYM dt ∧
      periodStart dt = ⟨dt.y, dt.m, 1⟩ ∧
      periodEnd dt = ⟨dt.y, dt.m, daysInMonth dt.y dt.m⟩ ∧
      releaseDateEst dt = none) ∧
    (dateLt dt cutover = false → dt.d ≤ 15 →
      scheme dt = "semi_monthly_post_2009_07" ∧
      period dt = fmtYM dt ++ "-H1" ∧
      periodStart dt = ⟨dt.y, dt.m, 1⟩ ∧
      periodEnd dt = ⟨dt.y, dt.m, 15⟩ ∧
      releaseDateEst dt = some ⟨dt.y, dt.m, daysInMonth dt.y dt.m⟩) ∧
    (dateLt dt cutover = false → 15 < dt.d →
      scheme dt = "semi_monthly_post_2009_07" ∧
      period dt = fmtYM dt ++ "-H2" ∧
      periodStart dt = ⟨dt.y, dt.m, 16⟩ ∧
      periodEnd dt = ⟨dt.y, dt.m, daysInMonth dt.y dt.m⟩ ∧
      releaseDateEst dt = some (if dt.m = 12 then ⟨dt.y + 1, 1, 15⟩
        else ⟨dt.y, dt.m + 1, 15⟩)) := by
  obtain ⟨-, hm1, hm2, -, -⟩ := h
  have hend := endOfMonth_eq_last_day dt hm1 hm2
  have hrel : replaceDay (offsetOneMonth (firstOfMonth dt)) 15 =
      if dt.m = 12 then (⟨dt.y + 1, 1, 15⟩ : Date) else ⟨dt.y, dt.m + 1, 15⟩ := by
    unfold replaceDay offsetOneMonth firstOfMonth replaceDay
    by_cases h12 : dt.m = 12 <;> simp [h12]
  refine ⟨?_, ?_, ?_⟩
  · intro hlt
    refine ⟨by simp [scheme, hlt], by simp [period, hlt], ?_, ?_, ?_⟩
    · simp [periodStart, hlt, firstOfMonth, replaceDay]
    · simp only [periodEnd, hlt, if_true]
      exact hend
    · simp [releaseDateEst, scheme, hlt]
  · intro hlt hd
    have hsch : scheme dt = "semi_monthly_post_2009_07" := by simp [scheme, hlt]
    refine ⟨hsch, by simp [period, hlt, hd], ?_, ?_, ?_⟩
    · simp [periodStart, hlt, hd, firstOfMonth, replaceDay]
    · simp [periodEnd, hlt, hd, replaceDay]
    · rw [releaseDateEst, if_pos hsch, if_pos hd, hend]
  · intro hlt hd
    have hd' : ¬dt.d ≤ 15 := by omega
    have hsch : scheme dt = "semi_monthly_post_2009_07" := by simp [scheme, hlt]
    refine ⟨hsch, by simp [period, hlt, hd'], ?_, ?_, ?_⟩
    · simp [periodStart, hlt, hd', replaceDay]
    · simp only [periodEnd, hlt, Bool.false_eq_true, if_false, if_neg hd']
      exact hend
    · rw [releaseDateEst, if_pos hsch, if_neg hd', hrel]

/-- Witness for C2 at the spec's three example dates: 2009-06-30 (monthly,
`2009-06`, 1st..30th, no estimate), 2009-07-10 (`2009-07-H1`, 1st..15th,
release 2009-07-31) and 2009-07-20 (`2009-07-H2`, 16th..31st, release
2009-08-15). -/
theorem period_assignment_witness :
    (scheme ⟨2009, 6, 30⟩ = "monthly_pre_2009_07" ∧
     period ⟨2009, 6, 30⟩ = "2009-06" ∧
     periodStart ⟨2009, 6, 30⟩ = ⟨2009, 6, 1⟩ ∧
     periodEnd ⟨2009, 6, 30⟩ = ⟨2009, 6, 30⟩ ∧
     releaseDateEst ⟨2009, 6, 30⟩ = none) ∧
    (scheme ⟨2009, 7, 10⟩ = "semi_monthly_post_2009_07" ∧
     period ⟨2009, 7, 10⟩ = "2009-07-H1" ∧
     periodStart ⟨2009, 7, 10⟩ = ⟨2009, 7, 1⟩ ∧
     periodEnd ⟨2009, 7, 10⟩ = ⟨2009, 7, 15⟩ ∧
     releaseDateEst ⟨2009, 7, 10⟩ = some ⟨2009, 7, 31⟩) ∧
    (scheme ⟨2009, 7, 20⟩ = "semi_monthly_post_2009_07" ∧
     period ⟨2009, 7, 20⟩ = "2009-07-H2" ∧
     periodStart ⟨2009, 7, 20⟩ = ⟨2009, 7, 16⟩ ∧
     periodEnd ⟨2009, 7, 20⟩ = ⟨2009, 7, 31⟩ ∧
     releaseDateEst ⟨2009, 7, 20⟩ = some ⟨2009, 8, 15⟩) := by
  have h1 := (period_assignment ⟨2009, 6, 30⟩ (by decide)).1 (by decide)
  have h2 := (period_assignment ⟨2009, 7, 10⟩ (by decide)).2.1 (by decide) (by decide)
  have h3 := (period_assignment ⟨2009, 7, 20⟩ (by decide)).2.2 (by decide) (by decide)
  refine ⟨⟨h1.1, ?_, h1.2.2.1, ?_, h1.2.2.2.2⟩,
          ⟨h2.1, ?_, h2.2.2.1, h2.2.2.2.1, ?_⟩,
          ⟨h3.1, ?_, h3.2.2.1, ?_, ?_⟩⟩
  · rw [h1.2.1]; decide
  · rw [h1.2.2.2.1]; decide
  · rw [h2.2.1]; decide
  · rw [h2.2.2.2.2]; decide
  · rw [h3.2.1]; decide
  · rw [h3.2.2.2.1]; decide
  · rw [h3.2.2.2.2]; decide

/-! ## Claim C10 — per-period aggregation formulas and output order -/

/-- Claim C10: every row of the aggregate reports the group's record
count, the sum of its (present) quantities, the unweighted arithmetic mean
of its (present) prices, and the sum of quantity × price over rows where
both are present; and the aggregate list is sorted by `period_start`
ascending. -/
theorem aggregation_formulas (recs : List FtdRec) :
    (∀ g ∈ aggregate recs,
      g.rows = (groupRows recs g.key).length ∧
      g.sum_qty = ((groupRows recs g.key).filterMap (fun r => r.qty)).sum ∧
      ((groupRows recs g.key).filterMap (fun r => r.price) ≠ [] →
        g.mean_price = some (((groupRows recs g.key).filterMap (fun r => r.price)).sum /
          (((groupRows recs g.key).filterMap (fun r => r.price)).length : ℚ))) ∧
      g.sum_weight = ((groupRows recs g.key).filterMap weight).sum) ∧
    List.Sorted (fun a b => dateLe a.key.period_start b.key.period_start = true)
      (aggregate recs) := by
  constructor
  · intro g hg
    have hg' : g ∈ (dedupFirst (recs.map keyOf)).map (aggRow recs) :=
      (List.mem_insertionSort _).mp hg
    obtain ⟨k, hk, rfl⟩ := List.mem_map.mp hg'
    refine ⟨rfl, rfl, ?_, rfl⟩
    intro hne
    rcases hps : (groupRows recs k).filterMap (fun r => r.price) with _ | ⟨p, ps⟩
    · exact absurd hps hne
    · show (if ((groupRows recs k).filterMap (fun r => r.price)).isEmpty
          then none else some (((groupRows recs k).filterMap (fun r => r.price)).sum /
            (((groupRows recs k).filterMap (fun r => r.price)).length : ℚ))) =
        some (((groupRows recs k).filterMap (fun r => r.price)).sum /
          (((groupRows recs k).filterMap (fun r => r.price)).length : ℚ))
      rw [hps]
      rfl
  · letI : IsTotal AggRow
        (fun a b => dateLe a.key.period_start b.key.period_start = true) :=
      ⟨fun a b => dateLe_total _ _⟩
    letI : IsTrans AggRow
        (fun a b => dateLe a.key.period_start b.key.period_start = true) :=
      ⟨fun a b c => dateLe_trans _ _ _⟩
    exact List.sorted_insertionSort _ _

/-- Witness for C10 on the one-record store `recsW`. -/
theorem aggregation_formulas_witness :
    aggW ∈ aggregate recsW ∧
    (aggW.rows = (groupRows recsW aggW.key).length ∧
     aggW.sum_qty = ((groupRows recsW aggW.key).filterMap (fun r => r.qty)).sum ∧
     ((groupRows recsW aggW.key).filterMap (fun r => r.price) ≠ [] →
       aggW.mean_price = some (((groupRows recsW aggW.key).filterMap (fun r => r.price)).sum /
         (((groupRows recsW aggW.key).filterMap (fun r => r.price)).length : ℚ))) ∧
     aggW.sum_weight = ((groupRows recsW aggW.key).filterMap weight).sum) := by
  have h4 : aggregate recsW = [aggW] := by
    have h1 : List.map keyOf recsW = [kW] := by decide
    have h3 : aggRow recsW kW = aggW := by
      have hg : groupRows recsW kW = recsW := by decide
      simp only [aggRow, hg, recsW, aggW]
      norm_num [List.filterMap, weight]
      decide
    rw [aggregate, h1]
    show List.insertionSort _ (List.map (aggRow recsW) (dedupFirst [kW])) = [aggW]
    rw [show dedupFirst [kW] = [kW] from rfl]
    rw [List.map, h3]
    rfl
  have hm : aggW ∈ aggregate recsW := by rw [h4]; exact List.mem_singleton.mpr rfl
  exact ⟨hm, (aggregation_formulas recsW).1 aggW hm⟩

/-! ## Merge-writer lemmas shared by claims C3 and C9 -/

theorem saveContent_eq_sort {existing : Option (List String)}
    {newLines : List String} {isU : Bool} {out : List String}
    (h : saveContent existing newLines isU = some out) :
    newLines.isEmpty = false ∧ (mergedSet existing newLines).isEmpty = false ∧
    out = List.insertionSort (fun a b => lineKeyLe isU a b = true)
      (mergedSet existing newLines) := by
  by_cases h1 : newLines.isEmpty
  · rw [saveContent, if_pos h1] at h
    cases h
  · by_cases h2 : (mergedSet existing newLines).isEmpty
    · rw [saveContent, if_neg h1, if_pos h2] at h
      cases h
    · rw [saveContent, if_neg h1, if_neg h2] at h
      exact ⟨Bool.eq_false_iff.mpr h1, Bool.eq_false_iff.mpr h2,
        (Option.some.inj h).symm⟩

theorem saveContent_sorted {existing : Option (List String)}
    {newLines : List String} {isU : Bool} {out : List String}
    (h : saveContent existing newLines isU = some out) :
    List.Sorted (fun a b => lineKeyLe isU a b = true) out := by
  obtain ⟨-, -, rfl⟩ := saveContent_eq_sort h
  letI : IsTotal String (fun a b => lineKeyLe isU a b = true) :=
    ⟨fun a b => lineKeyLe_total isU a b⟩
  letI : IsTrans String (fun a b => lineKeyLe isU a b = true) :=
    ⟨fun a b c => lineKeyLe_trans isU a b c⟩
  exact List.sorted_insertionSort _ _

theorem mem_mergedSet {existing : Option (List String)}
    {newLines : List String} {x : String} :
    x ∈ mergedSet existing newLines ↔
      ((x ∈ existing.getD [] ∨ x ∈ newLines) ∧ x ≠ "") := by
  rw [mergedSet, mem_dedupFirst, List.mem_append, List.mem_filter,
    List.mem_filter]
  constructor
  · rintro (⟨hm, hne⟩ | ⟨hm, hne⟩)
    · exact ⟨Or.inl hm, by simpa using hne⟩
    · exact ⟨Or.inr hm, by simpa using hne⟩
  · rintro ⟨hm | hm, hne⟩
    · exact Or.inl ⟨hm, by simpa using hne⟩
    · exact Or.inr ⟨hm, by simpa using hne⟩

theorem saveContent_mem {existing : Option (List String)}
    {newLines : List String} {isU : Bool} {out : List String}
    (h : saveContent existing newLines isU = some out) {x : String} :
    x ∈ out ↔ x ∈ mergedSet existing newLines := by
  obtain ⟨-, -, rfl⟩ := saveContent_eq_sort h
  exact List.mem_insertionSort _

theorem saveContent_nodup {existing : Option (List String)}
    {newLines : List String} {isU : Bool} {out : List String}
    (h : saveContent existing newLines isU = some out) : out.Nodup := by
  obtain ⟨-, -, rfl⟩ := saveContent_eq_sort h
  exact (List.perm_insertionSort _ _).symm.nodup (nodup_dedupFirst _)

/-- Second call with the same batch reproduces the same content: the core
of the idempotence claim. -/
theorem saveContent_idem {existing : Option (List String)}
    {newLines : List String} {isU : Bool} {out : List String}
    (h : saveContent existing newLines isU = some out) :
    saveContent (some out) newLines isU = some out := by
  obtain ⟨h1, h2, hout⟩ := saveContent_eq_sort h
  have hne : ∀ x ∈ out, x ≠ "" := by
    intro x hx
    exact (mem_mergedSet.mp ((saveContent_mem h).mp hx)).2
  have hfilter : out.filter (fun l => l ≠ "") = out :=
    List.filter_eq_self.mpr (fun a ha => by simpa using hne a ha)
  have hsub : ∀ y ∈ newLines.filter (fun l => l ≠ ""), y ∈ out := by
    intro y hy
    rcases List.mem_filter.mp hy with ⟨hym, hyne⟩
    exact (saveContent_mem h).mpr
      (mem_mergedSet.mpr ⟨Or.inr hym, by simpa using hyne⟩)
  have hmerged : mergedSet (some out) newLines = out := by
    rw [mergedSet]
    show dedupFirst (out.filter (fun l => l ≠ "") ++
      newLines.filter (fun l => l ≠ "")) = out
    rw [hfilter, dedupFirst_append_subset hsub,
      dedupFirst_eq_self (saveContent_nodup h)]
  have houtne : out ≠ [] := by
    intro hnil
    have hperm := List.perm_insertionSort
      (fun a b => lineKeyLe isU a b = true) (mergedSet existing newLines)
    rw [← hout, hnil] at hperm
    exact List.isEmpty_eq_false.mp h2 (hperm.symm.eq_nil)
  rw [saveContent, if_neg (by simp [List.isEmpty_eq_false.mpr,
    Bool.eq_false_iff.mp h1] : ¬newLines.isEmpty = true)]
  rw [hmerged, if_neg (by simp [List.isEmpty_eq_false.mpr houtne] :
    ¬out.isEmpty = true)]
  rw [(saveContent_sorted h).insertionSort_eq]

/-! ## Claim C3 — merge-append idempotence -/

/-- Claim C3: calling `_save_content_to_file` with a batch and then
immediately again with the same batch leaves the destination content
unchanged. -/
theorem merge_append_idempotent (existing : Option (List String))
    (newLines : List String) (isU : Bool) :
    contentAfter (contentAfter existing newLines isU) newLines isU =
      contentAfter existing newLines isU := by
  rcases h : saveContent existing newLines isU with _ | out
  · have hin : contentAfter existing newLines isU = existing := by
      rw [contentAfter, h]
    rw [hin, contentAfter, h]
  · have hin : contentAfter existing newLines isU = some out := by
      rw [contentAfter, h]
    rw [hin, contentAfter, saveContent_idem h]

/-! ## Claim C9 — deterministic sort keys -/

/-- Claim C9 (amended): the merged content is sorted by the first
comma-delimited field lexicographically for the universe destination, and
chronologically by the `%Y%m%d`-parsed date of the first field otherwise,
with unparsable first fields keyed as the sentinel date 1900-01-01 (so
such lines sort as if dated 1900-01-01 — before any line parsing to a
later date — instead of raising an error). -/
theorem merge_sort_order (existing : Option (List String))
    (newLines : List String) (isU : Bool) (out : List String)
    (h : saveContent existing newLines isU = some out) :
    (isU = true →
      List.Sorted (fun a b => strLe (firstField a) (firstField b) = true) out) ∧
    (isU = false →
      List.Sorted (fun a b => dateLe (dateKey a) (dateKey b) = true) out) ∧
    (∀ s : String, parseYmd (firstField s) = none → dateKey s = ⟨1900, 1, 1⟩) := by
  have hs := saveContent_sorted h
  refine ⟨?_, ?_, ?_⟩
  · rintro rfl
    exact hs
  · rintro rfl
    exact hs
  · intro s hp
    rw [dateKey, hp]
    rfl

/-- Witness for C9 on a non-universe destination with two dated lines. -/
theorem merge_sort_order_witness :
    ((false : Bool) = true →
      List.Sorted (fun a b => strLe (firstField a) (firstField b) = true)
        ["20240101,y", "20240102,x"]) ∧
    ((false : Bool) = false →
      List.Sorted (fun a b => dateLe (dateKey a) (dateKey b) = true)
        ["20240101,y", "20240102,x"]) ∧
    (∀ s : String, parseYmd (firstField s) = none → dateKey s = ⟨1900, 1, 1⟩) :=
  merge_sort_order none ["20240102,x", "20240101,y"] false
    ["20240101,y", "20240102,x"] (by decide)

/-- Counterexample for C9 as stated: the first field `"00050101"` parses
(year 5), which sorts strictly before the sentinel 1900-01-01, so the
unparsable line `"ZZZ,B"` sorts last, not first. -/
theorem merge_sort_counterexample :
    saveContent none ["00050101,A", "ZZZ,B"] false =
      some ["00050101,A", "ZZZ,B"] ∧
    parseYmd (firstField "ZZZ,B") = none ∧
    parseYmd (firstField "00050101,A") = some ⟨5, 1, 1⟩ ∧
    dateLt ⟨5, 1, 1⟩ ⟨1900, 1, 1⟩ = true := by
  exact ⟨by decide, by decide, by decide, by decide⟩

/-! ## Claim C4 — temp-file location and atomic rename -/

/-- Claim C4 (amended): `_save_content_to_file` writes the merged content
to a freshly-named temp file inside the downloader's dedicated `tmp`
directory under the destination root (not the destination's own
directory), then atomically renames it over the destination; at every
observable intermediate state the destination holds either its old
complete content or the new complete content, and after the rename it
holds the new content. -/
theorem atomic_rename (fs0 : Fs) (root destArg : FsPath)
    (name uuidHex : String) (content : List String)
    (hne : tmp_name root uuidHex ≠ final_path destArg name) :
    parentDir (tmp_name root uuidHex) = tmp_folder root ∧
    (∀ fs ∈ saveStates fs0 root destArg name uuidHex content,
      fs (final_path destArg name) = fs0 (final_path destArg name) ∨
      fs (final_path destArg name) = some content) ∧
    fsRename (fsWrite fs0 (tmp_name root uuidHex) content)
      (tmp_name root uuidHex) (final_path destArg name)
      (final_path destArg name) = some content := by
  have hfinal : fsRename (fsWrite fs0 (tmp_name root uuidHex) content)
      (tmp_name root uuidHex) (final_path destArg name)
      (final_path destArg name) = some content := by
    rw [fsRename, if_pos rfl, fsWrite, if_pos rfl]
  refine ⟨List.dropLast_concat, ?_, hfinal⟩
  intro fs hfs
  simp only [saveStates, List.mem_cons, List.not_mem_nil, or_false] at hfs
  rcases hfs with rfl | rfl | rfl
  · left
    rfl
  · left
    rw [fsWrite, if_neg (fun hc => hne hc.symm)]
  · right
    exact hfinal

/-- Witness for C4 at the universe destination of the sample downloader. -/
theorem atomic_rename_witness :
    parentDir (tmp_name ["sec-fails-to-deliver"] "deadbeef") =
      tmp_folder ["sec-fails-to-deliver"] ∧
    (∀ fs ∈ saveStates (fun _ => none) ["sec-fails-to-deliver"]
        (universe_folder ["sec-fails-to-deliver"]) "20240115" "deadbeef" ["r1"],
      fs (final_path (universe_folder ["sec-fails-to-deliver"]) "20240115") =
        (fun _ => (none : Option (List String)))
          (final_path (universe_folder ["sec-fails-to-deliver"]) "20240115") ∨
      fs (final_path (universe_folder ["sec-fails-to-deliver"]) "20240115") =
        some ["r1"]) ∧
    fsRename (fsWrite (fun _ => none)
        (tmp_name ["sec-fails-to-deliver"] "deadbeef") ["r1"])
      (tmp_name ["sec-fails-to-deliver"] "deadbeef")
      (final_path (universe_folder ["sec-fails-to-deliver"]) "20240115")
      (final_path (universe_folder ["sec-fails-to-deliver"]) "20240115") =
      some ["r1"] :=
  atomic_rename (fun _ => none) ["sec-fails-to-deliver"]
    (universe_folder ["sec-fails-to-deliver"]) "20240115" "deadbeef" ["r1"]
    (by decide)

/-- Counterexample for C4 as stated: the temp file's containing directory
is the downloader's `tmp` folder, not the destination's containing
directory — for the universe destination the two parents differ. -/
theorem tmp_dir_counterexample :
    parentDir (tmp_name ["sec-fails-to-deliver"] "deadbeef") ≠
      parentDir (final_path (universe_folder ["sec-fails-to-deliver"])
        "20240115") := by
  decide

/-! ## Claim C6 — ledger monotonicity and write-gated additions -/

theorem runSpider_saved_sub_files (st : SpiderSt) (rs : List ZipResp)
    (h : ∀ u ∈ st.savedUrls, u ∈ st.files) :
    ∀ u ∈ (runSpider st rs).savedUrls, u ∈ (runSpider st rs).files := by
  induction rs generalizing st with
  | nil => exact h
  | cons r rs ih =>
    apply ih
    intro u hu
    by_cases h1 : r.status ≠ 200
    · rw [saveZip, if_pos h1] at hu ⊢
      exact h u hu
    · by_cases h2 : r.writeOk
      · rw [saveZip, if_neg h1, if_pos h2] at hu ⊢
        rcases List.mem_append.mp hu with hu | hu
        · exact List.mem_append_left _ (h u hu)
        · exact List.mem_append_right _ hu
      · rw [saveZip, if_neg h1, if_neg (by simpa using h2)] at hu ⊢
        exact h u hu

/-- Claim C6: the ledger persisted at the end of a run contains every
entry loaded from disk at that moment (entries are never removed), and
every entry of the persisted ledger beyond the loaded set is a URL whose
zip file was durably written during the run (a URL enters `saved_urls`
only after its `write_bytes` succeeded). -/
theorem ledger_monotone_write_gated (current : List String)
    (rs : List ZipResp) :
    (∀ u ∈ current, u ∈ closedLedger current (runSpider ⟨[], []⟩ rs)) ∧
    (∀ u ∈ closedLedger current (runSpider ⟨[], []⟩ rs),
      u ∈ current ∨ u ∈ (runSpider ⟨[], []⟩ rs).files) ∧
    (∀ u ∈ (runSpider ⟨[], []⟩ rs).savedUrls,
      u ∈ (runSpider ⟨[], []⟩ rs).files) := by
  have hsub := runSpider_saved_sub_files ⟨[], []⟩ rs (by simp)
  refine ⟨?_, ?_, hsub⟩
  · intro u hu
    rw [closedLedger]
    exact (List.mem_insertionSort _).mpr
      ((mem_dedupFirst _ _).mpr (List.mem_append_left _ hu))
  · intro u hu
    rw [closedLedger] at hu
    have := (mem_dedupFirst _ _).mp ((List.mem_insertionSort _).mp hu)
    rcases List.mem_append.mp this with hc | hs
    · exact Or.inl hc
    · exact Or.inr (hsub u hs)

/-- Witness for C6 on a one-download run over a one-entry on-disk
ledger. -/
theorem ledger_monotone_witness :
    "https://a.zip" ∈ closedLedger ["https://a.zip"]
      (runSpider ⟨[], []⟩ [⟨"https://z.zip", 200, true⟩]) ∧
    ("https://z.zip" ∈ ["https://a.zip"] ∨
      "https://z.zip" ∈ (runSpider ⟨[], []⟩
        [⟨"https://z.zip", 200, true⟩]).files) :=
  ⟨(ledger_monotone_write_gated ["https://a.zip"]
      [⟨"https://z.zip", 200, true⟩]).1 "https://a.zip" (by decide),
   (ledger_monotone_write_gated ["https://a.zip"]
      [⟨"https://z.zip", 200, true⟩]).2.1 "https://z.zip" (by decide)⟩

end SECFTD
